import Mathlib

/-!
Verification of the peer-discovery and file-transfer core of the clifs
repository (the P2P file-sharing terminal programs).  The Go source is
shallowly embedded: byte streams are lists of naturals, the bubbletea
update functions become pure state-transition functions, the UDP
discovery loop becomes a fold over the list of received datagrams, and
`io.Copy` becomes a function on an explicit connection-stream value.
-/

/-! ## Transfer engine: `sendFile` / `receiveFile` (network-monitor/main.go)

The sender opens the file and runs `io.Copy(conn, file)`; the receiver
runs `io.Copy(file, conn)` into the destination file `received_file`.
There is no framing: the receiver reads until the connection ends.  A
connection ends either with a clean close (`eof`: the peer sent FIN,
which `io.Copy` treats as normal end of input) or with a transport
error (`severed`: e.g. a TCP reset, which `io.Copy` reports as an
error). -/

/-- How the byte stream carried by a TCP connection terminates, as seen
by a reader: clean end of stream, or a transport error. -/
inductive StreamEnd
  | eof
  | severed
deriving DecidableEq

/-- The data a reader obtains from a connection: the chunks that were
delivered, and how the stream terminated. -/
structure ConnData where
  chunks : List (List Nat)
  ending : StreamEnd
deriving DecidableEq

/-- Outcome of a transfer as reported by the program: the success print
(with the byte count returned by `io.Copy`) or the error print. -/
inductive Outcome
  | Completed (bytes : Nat)
  | Failed
deriving DecidableEq

/-- `io.Copy(dst, src)`: writes every delivered chunk to `dst` and
returns the byte count; a clean `eof` is success, a transport error is
reported as failure (the bytes copied so far are already written). -/
def ioCopy (c : ConnData) : List Nat × Outcome :=
  match c.ending with
  | StreamEnd.eof => (c.chunks.flatten, Outcome.Completed c.chunks.flatten.length)
  | StreamEnd.severed => (c.chunks.flatten, Outcome.Failed)

/-- What the sender reads from the source file: the chunks successfully
read (and hence written to the connection), and whether reading ran to
end of file without error. -/
structure FileRead where
  chunks : List (List Nat)
  readOk : Bool

/-- `sendFile` (network-monitor/main.go): dials the peer, then
`io.Copy(conn, file)` writes the chunks read from the file to the
connection; the deferred `conn.Close()` then closes the connection
cleanly (FIN, hence `eof` for the reader) on every return path, whether
the copy succeeded or aborted on a source read error.  The boolean is
the success print. -/
def sendFile (f : FileRead) : ConnData × Bool :=
  (ConnData.mk f.chunks StreamEnd.eof, f.readOk)

/-- `receiveFile` (network-monitor/main.go): creates `received_file`
and runs `io.Copy(file, conn)`; prints success exactly when the copy
reports no error. -/
def receiveFile (c : ConnData) : List Nat × Outcome :=
  ioCopy c

/-! ## Wire codec (modelled from the spec)

The transfer code in src uses a raw unframed copy; the length-prefixed
frame codec exists only in the design. -/

/-- Big-endian base-256 encoding of `n` on `k` bytes. -/
def toBytesBE : Nat → Nat → List Nat
  | 0, _ => []
  | k + 1, n => toBytesBE k (n / 256) ++ [n % 256]

/-- Big-endian base-256 decoding of a byte list. -/
def fromBytesBE (bs : List Nat) : Nat :=
  bs.foldl (fun a b => 256 * a + b) 0

/-- Result of decoding one frame from the available bytes of a stream. -/
inductive FrameResult
  | payload (p : List Nat) (rest : List Nat)
  | endOfStream (rest : List Nat)
  | truncated
deriving DecidableEq

/-- Modelled from the spec: `encodeFrame(payload: bytes) -> bytes`
prepends an explicit length prefix (an unsigned 64-bit count, 8 bytes
big-endian) to the payload; absent from src, which copies raw bytes. -/
def encodeFrame (p : List Nat) : List Nat :=
  toBytesBE 8 p.length ++ p

/-- Modelled from the spec: `decodeFrame(reader) -> payload |
EndOfStream | TruncatedError`; a zero-length frame is the end-of-stream
marker, and fewer available bytes than the declared length (or a
stream that ends inside the length field) is `truncated`; absent from
src. -/
def decodeFrame (s : List Nat) : FrameResult :=
  if s.length < 8 then FrameResult.truncated
  else if fromBytesBE (s.take 8) = 0 then FrameResult.endOfStream (s.drop 8)
  else if (s.drop 8).length < fromBytesBE (s.take 8) then FrameResult.truncated
  else FrameResult.payload ((s.drop 8).take (fromBytesBE (s.take 8)))
    ((s.drop 8).drop (fromBytesBE (s.take 8)))

lemma length_toBytesBE (k n : Nat) : (toBytesBE k n).length = k := by
  induction k generalizing n with
  | zero => rfl
  | succ k ih => simp [toBytesBE, ih]

lemma fromBytesBE_append_singleton (xs : List Nat) (b : Nat) :
    fromBytesBE (xs ++ [b]) = 256 * fromBytesBE xs + b := by
  simp [fromBytesBE, List.foldl_append]

lemma fromBytesBE_toBytesBE (k n : Nat) :
    fromBytesBE (toBytesBE k n) = n % 256 ^ k := by
  induction k generalizing n with
  | zero => simp [toBytesBE, fromBytesBE, Nat.mod_one]
  | succ k ih =>
    rw [toBytesBE, fromBytesBE_append_singleton, ih]
    have h256 : 0 < 256 := by norm_num
    calc 256 * (n / 256 % 256 ^ k) + n % 256
        = 256 * (n / 256 % 256 ^ k) + n % 256 := rfl
      _ = n % (256 * 256 ^ k) := by
          rw [Nat.mod_mul]; omega
      _ = n % 256 ^ (k + 1) := by ring_nf

/-! ## Discovery engine (network-monitor/main.go `discoverPeers` and
p2pshare.go `discoverPeers`)

Both bind a UDP socket on port 9876, broadcast `"DISCOVER_PEER"`, and
collect peers into a Go map keyed by the sender address string, which
the snapshot lists once per key.  The map is modelled as a duplicate-
free list built by `upsert`; the receive loop becomes a fold over the
list of datagrams received during the 2-second collection. -/

/-- A received UDP datagram: its payload string and the sender address
string `addr.String()`. -/
structure Datagram where
  payload : String
  sender : String
deriving DecidableEq

/-- The two protocol tags compared against in both loops, as a tagged
message; anything else is not a protocol message. -/
inductive DiscoveryMessage
  | Probe
  | Response
  | InvalidMessage
deriving DecidableEq

/-- The classification both loops apply to a payload: equality with
`"DISCOVER_PEER"`, else equality with `"PEER_RESPONSE"`, else neither. -/
def decode (s : String) : DiscoveryMessage :=
  if s = "DISCOVER_PEER" then DiscoveryMessage.Probe
  else if s = "PEER_RESPONSE" then DiscoveryMessage.Response
  else DiscoveryMessage.InvalidMessage

/-- Insertion into the Go map `peers` keyed by address: a present key
is left as is (the empty struct value is overwritten), an absent key is
added once.  Go map iteration order is unspecified, so the list order
carries no meaning; only membership and multiplicity do. -/
def upsert (peers : List String) (a : String) : List String :=
  if a ∈ peers then peers else a :: peers

/-- One iteration of the network-monitor receive loop: a
`"DISCOVER_PEER"` payload is answered with a `"PEER_RESPONSE"` unicast
to the sender, a `"PEER_RESPONSE"` payload upserts the sender into the
peer map, and any other payload does nothing.  Returns the new peer map
and the reply sent, if any. -/
def nmStep (peers : List String) (d : Datagram) : List String × Option Datagram :=
  if d.payload = "DISCOVER_PEER" then
    (peers, some (Datagram.mk "PEER_RESPONSE" d.sender))
  else if d.payload = "PEER_RESPONSE" then
    (upsert peers d.sender, none)
  else
    (peers, none)

/-- One iteration of the p2pshare.go receive loop: every datagram read
without error has its sender upserted into the peer map, regardless of
payload, and no reply is ever sent. -/
def p2pStep (peers : List String) (d : Datagram) : List String × Option Datagram :=
  (upsert peers d.sender, none)

/-- The network-monitor receive loop over the datagrams received during
the collection period: final peer map and the list of replies sent. -/
def nmLoop (peers : List String) : List Datagram → List String × List Datagram
  | [] => (peers, [])
  | d :: ds =>
    let s := nmStep peers d
    let r := nmLoop s.1 ds
    (r.1, s.2.toList ++ r.2)

/-- A datagram together with its arrival time (seconds since the start
of the run); the source never reads the clock for a datagram, so the
time is carried only to state staleness properties. -/
structure TimedDatagram where
  time : Nat
  dgram : Datagram
deriving DecidableEq

/-- The peer snapshot `discoverPeers` returns after its 2-second
collection, computed from the timed datagrams: the source ignores the
arrival times entirely. -/
def snapshotTimed (evs : List TimedDatagram) : List String :=
  (nmLoop [] (evs.map TimedDatagram.dgram)).1

/-- The whole `discoverPeers` run (network-monitor/main.go): if the
initial broadcast send fails, the function returns the error text as
the result list at once, before the receive loop is started, so no
datagram is processed and no reply is sent; otherwise the loop runs and
the snapshot is returned. -/
def discoverPeersRun (broadcastOk : Bool) (errText : String)
    (evs : List Datagram) : List String × List Datagram :=
  if broadcastOk then nmLoop [] evs
  else (["Error sending broadcast: " ++ errText], [])

lemma mem_upsert_self (peers : List String) (a : String) :
    a ∈ upsert peers a := by
  unfold upsert
  split <;> simp_all

lemma mem_upsert_of_mem (peers : List String) (a b : String) (h : b ∈ peers) :
    b ∈ upsert peers a := by
  unfold upsert
  split <;> simp_all

lemma nodup_upsert (peers : List String) (a : String) (h : peers.Nodup) :
    (upsert peers a).Nodup := by
  unfold upsert
  split <;> simp_all

lemma nmLoop_mem_mono (evs : List Datagram) (peers : List String) (a : String)
    (h : a ∈ peers) : a ∈ (nmLoop peers evs).1 := by
  induction evs generalizing peers with
  | nil => simpa [nmLoop]
  | cons d ds ih =>
    by_cases h1 : d.payload = "DISCOVER_PEER"
    · simpa [nmLoop, nmStep, h1] using ih peers h
    · by_cases h2 : d.payload = "PEER_RESPONSE"
      · simpa [nmLoop, nmStep, h1, h2] using ih _ (mem_upsert_of_mem _ _ _ h)
      · simpa [nmLoop, nmStep, h1, h2] using ih peers h

lemma nmLoop_nodup (evs : List Datagram) (peers : List String)
    (h : peers.Nodup) : ((nmLoop peers evs).1).Nodup := by
  induction evs generalizing peers with
  | nil => simpa [nmLoop]
  | cons d ds ih =>
    by_cases h1 : d.payload = "DISCOVER_PEER"
    · simpa [nmLoop, nmStep, h1] using ih peers h
    · by_cases h2 : d.payload = "PEER_RESPONSE"
      · simpa [nmLoop, nmStep, h1, h2] using ih _ (nodup_upsert _ _ h)
      · simpa [nmLoop, nmStep, h1, h2] using ih peers h

lemma nmLoop_mem_of_response (evs : List Datagram) (peers : List String)
    (a : String) (h : ∃ d ∈ evs, d.payload = "PEER_RESPONSE" ∧ d.sender = a) :
    a ∈ (nmLoop peers evs).1 := by
  induction evs generalizing peers with
  | nil => simp at h
  | cons d ds ih =>
    rcases h with ⟨e, he, hpay, hsend⟩
    rcases List.mem_cons.mp he with rfl | hmem
    · have h1 : e.payload ≠ "DISCOVER_PEER" := by rw [hpay]; decide
      simp only [nmLoop, nmStep, h1, if_false, hpay, if_true, if_neg h1, if_pos rfl]
      exact nmLoop_mem_mono _ _ _ (hsend ▸ mem_upsert_self peers e.sender)
    · by_cases h1 : d.payload = "DISCOVER_PEER"
      · simpa [nmLoop, nmStep, h1] using ih peers ⟨e, hmem, hpay, hsend⟩
      · by_cases h2 : d.payload = "PEER_RESPONSE"
        · simpa [nmLoop, nmStep, h1, h2] using ih _ ⟨e, hmem, hpay, hsend⟩
        · simpa [nmLoop, nmStep, h1, h2] using ih peers ⟨e, hmem, hpay, hsend⟩

lemma nmLoop_reply_of_probe (evs : List Datagram) (peers : List String)
    (d : Datagram) (hmem : d ∈ evs) (hpay : d.payload = "DISCOVER_PEER") :
    Datagram.mk "PEER_RESPONSE" d.sender ∈ (nmLoop peers evs).2 := by
  induction evs generalizing peers with
  | nil => simp at hmem
  | cons e es ih =>
    rcases List.mem_cons.mp hmem with rfl | hmem2
    · simp [nmLoop, nmStep, hpay]
    · by_cases h1 : e.payload = "DISCOVER_PEER"
      · simp only [nmLoop, nmStep, h1, if_pos rfl]
        simpa using Or.inr (ih peers hmem2)
      · by_cases h2 : e.payload = "PEER_RESPONSE"
        · simpa [nmLoop, nmStep, h1, h2] using ih (upsert peers e.sender) hmem2
        · simpa [nmLoop, nmStep, h1, h2] using ih peers hmem2

/-! ## Menu model `Update` (network-monitor/main.go and p2pshare.go)

Both programs carry the same `model` struct; the two `Update` functions
differ in the Enter and peer-list branches.  Go slice indexing
`xs[i]` panics when `i` is negative or not below `len(xs)`; the
embedding returns `Option.none` for a panic.  Selection indices are Go
`int`s, embedded as `Int`. -/

/-- The key presses the update functions dispatch on (quit keys are
collapsed into one). -/
inductive UiKey
  | down
  | up
  | enter
  | quitKey
deriving DecidableEq

/-- A bubbletea message as consumed by `Update`: a key press or the
`[]string` peer list produced by `discoverPeers`. -/
inductive UiMsg
  | key (k : UiKey)
  | peerList (ps : List String)
deriving DecidableEq

/-- The command returned to the runtime: nothing, quit, or the
`go sendFile(file, peer)` launch fired by the Enter handler. -/
inductive UiCmd
  | nil
  | quit
  | send (file peer : String)
deriving DecidableEq

/-- The `model` struct shared by both programs. -/
structure UiModel where
  peers : List String
  files : List String
  selectedPeer : Int
  selectedFile : Int
  stage : String
  status : String
deriving DecidableEq

/-- Go slice indexing `xs[i]` for an `int` index: a value when
`0 ≤ i < len(xs)`, a panic (`Option.none`) otherwise. -/
def goIdx (xs : List String) (i : Int) : Option String :=
  if 0 ≤ i then xs.get? i.toNat else Option.none

/-- `initialModel()` with the directory listing `files` supplied by
`getFiles()` as a parameter. -/
def uiInit (files : List String) : UiModel :=
  UiModel.mk [] files 0 0 "peers" "🔍 Searching for peers..."

/-- `Update` of network-monitor/main.go (the p2p sharing program in
that file): KeyDown/KeyUp move the selection within bounds, KeyEnter in
the peers stage advances to the files stage and resets `selectedFile`,
KeyEnter in the files stage indexes the file and peer slices and fires
`go sendFile`, and a non-empty `[]string` replaces `peers` and resets
`selectedPeer`.  `Option.none` models a Go panic. -/
def nmUpdate (m : UiModel) (msg : UiMsg) : Option (UiModel × UiCmd) :=
  match msg with
  | UiMsg.key UiKey.quitKey => some (m, UiCmd.quit)
  | UiMsg.key UiKey.down =>
    if m.stage = "peers" ∧ 0 < m.peers.length ∧
        m.selectedPeer < (m.peers.length : Int) - 1 then
      some ({ m with selectedPeer := m.selectedPeer + 1 }, UiCmd.nil)
    else if m.stage = "files" ∧ 0 < m.files.length ∧
        m.selectedFile < (m.files.length : Int) - 1 then
      some ({ m with selectedFile := m.selectedFile + 1 }, UiCmd.nil)
    else some (m, UiCmd.nil)
  | UiMsg.key UiKey.up =>
    if m.stage = "peers" ∧ 0 < m.selectedPeer then
      some ({ m with selectedPeer := m.selectedPeer - 1 }, UiCmd.nil)
    else if m.stage = "files" ∧ 0 < m.selectedFile then
      some ({ m with selectedFile := m.selectedFile - 1 }, UiCmd.nil)
    else some (m, UiCmd.nil)
  | UiMsg.key UiKey.enter =>
    if m.stage = "peers" ∧ 0 < m.peers.length then
      some ({ m with status := "📂 Select a file to send",
                     stage := "files", selectedFile := 0 }, UiCmd.nil)
    else if m.stage = "files" ∧ 0 < m.files.length then
      match goIdx m.files m.selectedFile, goIdx m.peers m.selectedPeer with
      | some f, some p =>
        some ({ m with status := "📡 Sending file: " ++ f ++ " to " ++ p },
              UiCmd.send f p)
      | _, _ => Option.none
    else some (m, UiCmd.nil)
  | UiMsg.peerList ps =>
    if ps.length = 0 then
      some ({ m with status := "❌ No peers found." }, UiCmd.nil)
    else
      some ({ m with peers := ps, status := "✅ Peers found! Select one.",
                     selectedPeer := 0 }, UiCmd.nil)

/-- `Update` of p2pshare.go: same structure, except that the Down
handler in the peers stage has no non-empty guard, KeyEnter in the
peers stage does not reset `selectedFile`, and a non-empty `[]string`
replaces `peers` without resetting `selectedPeer`. -/
def p2pUpdate (m : UiModel) (msg : UiMsg) : Option (UiModel × UiCmd) :=
  match msg with
  | UiMsg.key UiKey.quitKey => some (m, UiCmd.quit)
  | UiMsg.key UiKey.down =>
    if m.stage = "peers" ∧ m.selectedPeer < (m.peers.length : Int) - 1 then
      some ({ m with selectedPeer := m.selectedPeer + 1 }, UiCmd.nil)
    else if m.stage = "files" ∧ m.selectedFile < (m.files.length : Int) - 1 then
      some ({ m with selectedFile := m.selectedFile + 1 }, UiCmd.nil)
    else some (m, UiCmd.nil)
  | UiMsg.key UiKey.up =>
    if m.stage = "peers" ∧ 0 < m.selectedPeer then
      some ({ m with selectedPeer := m.selectedPeer - 1 }, UiCmd.nil)
    else if m.stage = "files" ∧ 0 < m.selectedFile then
      some ({ m with selectedFile := m.selectedFile - 1 }, UiCmd.nil)
    else some (m, UiCmd.nil)
  | UiMsg.key UiKey.enter =>
    if m.stage = "peers" ∧ 0 < m.peers.length then
      some ({ m with status := "📂 Select a file to send",
                     stage := "files" }, UiCmd.nil)
    else if m.stage = "files" ∧ 0 < m.files.length then
      match goIdx m.files m.selectedFile, goIdx m.peers m.selectedPeer with
      | some f, some p =>
        some ({ m with status := "📡 Sending file: " ++ f ++ " to " ++ p },
              UiCmd.send f p)
      | _, _ => Option.none
    else some (m, UiCmd.nil)
  | UiMsg.peerList ps =>
    if ps.length = 0 then
      some ({ m with status := "❌ No peers found." }, UiCmd.nil)
    else
      some ({ m with peers := ps,
                     status := "✅ Peers found! Select one." }, UiCmd.nil)

/-- Runs a list of messages through `p2pUpdate` from a starting model;
`Option.none` as soon as any step panics. -/
def runP2p (m : UiModel) : List UiMsg → Option UiModel
  | [] => some m
  | msg :: rest =>
    match p2pUpdate m msg with
    | Option.none => Option.none
    | some r => runP2p r.1 rest

/-- Runs a list of messages through `nmUpdate`, collecting the command
emitted at each step; `Option.none` as soon as any step panics. -/
def runNmCmds (m : UiModel) : List UiMsg → Option (UiModel × List UiCmd)
  | [] => some (m, [])
  | msg :: rest =>
    match nmUpdate m msg with
    | Option.none => Option.none
    | some r =>
      match runNmCmds r.1 rest with
      | Option.none => Option.none
      | some t => some (t.1, r.2 :: t.2)

/-- The bounds invariant maintained by `nmUpdate`: selection indices
are non-negative, each index is below the length of its slice or still
at its reset value 0, and the files stage is reachable only with a
non-empty peer list. -/
def NmInv (m : UiModel) : Prop :=
  0 ≤ m.selectedPeer ∧ 0 ≤ m.selectedFile ∧
  (m.selectedPeer < (m.peers.length : Int) ∨ m.selectedPeer = 0) ∧
  (m.selectedFile < (m.files.length : Int) ∨ m.selectedFile = 0) ∧
  (m.stage = "files" → 0 < m.peers.length)

/-- The states of the network-monitor menu reachable from the initial
model by any sequence of messages. -/
inductive NmReach (files : List String) : UiModel → Prop
  | init : NmReach files (uiInit files)
  | step {m m' : UiModel} {msg : UiMsg} {c : UiCmd} :
      NmReach files m → nmUpdate m msg = some (m', c) → NmReach files m'

lemma nmInv_init (files : List String) : NmInv (uiInit files) := by
  refine ⟨le_refl 0, le_refl 0, Or.inr rfl, Or.inr rfl, ?_⟩
  intro h
  simp [uiInit] at h

lemma nmInv_step {m m' : UiModel} {msg : UiMsg} {c : UiCmd}
    (hm : NmInv m) (h : nmUpdate m msg = some (m', c)) : NmInv m' := by
  obtain ⟨h1, h2, h3, h4, h5⟩ := hm
  cases msg with
  | key k =>
    cases k with
    | quitKey =>
      simp only [nmUpdate, Option.some.injEq, Prod.mk.injEq] at h
      obtain ⟨rfl, rfl⟩ := h
      exact ⟨h1, h2, h3, h4, h5⟩
    | down =>
      simp only [nmUpdate] at h
      split_ifs at h with hc1 hc2 <;>
        simp only [Option.some.injEq, Prod.mk.injEq] at h <;>
        obtain ⟨rfl, rfl⟩ := h
      · obtain ⟨hs, hl, hsp⟩ := hc1
        exact ⟨show (0:Int) ≤ m.selectedPeer + 1 by omega, h2,
          Or.inl (show m.selectedPeer + 1 < (m.peers.length : Int) by omega),
          h4, h5⟩
      · obtain ⟨hs, hl, hsf⟩ := hc2
        exact ⟨h1, show (0:Int) ≤ m.selectedFile + 1 by omega, h3,
          Or.inl (show m.selectedFile + 1 < (m.files.length : Int) by omega),
          h5⟩
      · exact ⟨h1, h2, h3, h4, h5⟩
    | up =>
      simp only [nmUpdate] at h
      split_ifs at h with hc1 hc2 <;>
        simp only [Option.some.injEq, Prod.mk.injEq] at h <;>
        obtain ⟨rfl, rfl⟩ := h
      · obtain ⟨hs, hsp⟩ := hc1
        have hlt : m.selectedPeer < (m.peers.length : Int) := by
          rcases h3 with h | h <;> omega
        exact ⟨show (0:Int) ≤ m.selectedPeer - 1 by omega, h2,
          Or.inl (show m.selectedPeer - 1 < (m.peers.length : Int) by omega),
          h4, h5⟩
      · obtain ⟨hs, hsf⟩ := hc2
        have hlt : m.selectedFile < (m.files.length : Int) := by
          rcases h4 with h | h <;> omega
        exact ⟨h1, show (0:Int) ≤ m.selectedFile - 1 by omega, h3,
          Or.inl (show m.selectedFile - 1 < (m.files.length : Int) by omega),
          h5⟩
      · exact ⟨h1, h2, h3, h4, h5⟩
    | enter =>
      simp only [nmUpdate] at h
      split_ifs at h with hc1 hc2
      · simp only [Option.some.injEq, Prod.mk.injEq] at h
        obtain ⟨rfl, rfl⟩ := h
        exact ⟨h1, le_refl 0, h3, Or.inr rfl, fun _ => hc1.2⟩
      · cases hf : goIdx m.files m.selectedFile with
        | none =>
          rw [hf] at h
          cases hp : goIdx m.peers m.selectedPeer <;> rw [hp] at h <;> simp at h
        | some f =>
          cases hp : goIdx m.peers m.selectedPeer with
          | none => rw [hf, hp] at h; simp at h
          | some p =>
            rw [hf, hp] at h
            simp only [Option.some.injEq, Prod.mk.injEq] at h
            obtain ⟨rfl, rfl⟩ := h
            exact ⟨h1, h2, h3, h4, h5⟩
      · simp only [Option.some.injEq, Prod.mk.injEq] at h
        obtain ⟨rfl, rfl⟩ := h
        exact ⟨h1, h2, h3, h4, h5⟩
  | peerList ps =>
    simp only [nmUpdate] at h
    split_ifs at h with hc1 <;>
      simp only [Option.some.injEq, Prod.mk.injEq] at h <;>
      obtain ⟨rfl, rfl⟩ := h
    · exact ⟨h1, h2, h3, h4, h5⟩
    · exact ⟨le_refl 0, h2, Or.inr rfl, h4,
        fun _ => show 0 < ps.length by omega⟩

lemma nmInv_reach {files : List String} {m : UiModel}
    (h : NmReach files m) : NmInv m := by
  induction h with
  | init => exact nmInv_init files
  | step _ hstep ih => exact nmInv_step ih hstep

lemma goIdx_isSome_of_lt {xs : List String} {i : Int}
    (h0 : 0 ≤ i) (h : i < (xs.length : Int)) : (goIdx xs i).isSome := by
  have hn : i.toNat < xs.length := by omega
  unfold goIdx
  rw [if_pos h0, List.get?_eq_get hn]
  rfl

lemma nmUpdate_isSome (m : UiModel) (msg : UiMsg) (hm : NmInv m) :
    (nmUpdate m msg).isSome := by
  obtain ⟨h1, h2, h3, h4, h5⟩ := hm
  cases msg with
  | key k =>
    cases k with
    | quitKey => simp [nmUpdate]
    | down => simp only [nmUpdate]; split_ifs <;> simp
    | up => simp only [nmUpdate]; split_ifs <;> simp
    | enter =>
      simp only [nmUpdate]
      split_ifs with hc1 hc2
      · simp
      · have hpl : 0 < m.peers.length := h5 hc2.1
        have hfidx : (goIdx m.files m.selectedFile).isSome :=
          goIdx_isSome_of_lt h2 (by rcases h4 with h | h <;> omega)
        have hpidx : (goIdx m.peers m.selectedPeer).isSome :=
          goIdx_isSome_of_lt h1 (by rcases h3 with h | h <;> omega)
        cases hf : goIdx m.files m.selectedFile with
        | none => rw [hf] at hfidx; simp at hfidx
        | some f =>
          cases hp : goIdx m.peers m.selectedPeer with
          | none => rw [hp] at hpidx; simp at hpidx
          | some p => simp
      · simp
  | peerList ps =>
    simp only [nmUpdate]; split_ifs <;> simp

/-! ## Claims -/

/-- Claim C1: for every file transferred over an unbroken connection
(every chunk the sender wrote is delivered, then the clean close), the
receiver writes a destination byte-identical to the sender source
file, and the reported outcome is success with the `io.Copy` byte
count equal to the file size, with `sendFile` and `receiveFile` as the
two ends of the transfer. -/
theorem C1_unbroken_transfer_intact (file : List Nat) (chunks : List (List Nat))
    (h : chunks.flatten = file) :
    (sendFile (FileRead.mk chunks true)).2 = true ∧
    receiveFile (sendFile (FileRead.mk chunks true)).1 =
      (file, Outcome.Completed file.length) := by
  subst h
  exact ⟨rfl, rfl⟩

/-- Witness for C1 at a concrete two-chunk file. -/
theorem C1_unbroken_transfer_intact_witness :
    (sendFile (FileRead.mk [[1, 2], [3]] true)).2 = true ∧
    receiveFile (sendFile (FileRead.mk [[1, 2], [3]] true)).1 =
      ([1, 2, 3], Outcome.Completed 3) :=
  C1_unbroken_transfer_intact [1, 2, 3] [[1, 2], [3]] rfl

/-- Claim C3, the failing input evaluated: the sender aborts after one
byte of a larger intended file (source read error, or equally a peer
process exiting mid-transfer), so its deferred `conn.Close()` delivers
a clean `eof` to the receiver after only the first byte; `receiveFile`
nevertheless reports the success outcome with the short byte count,
treating the truncated transfer as success — the silent data loss the
spec rules out.  Only a transport-error severing (`severed`) is
reported as `Failed`; an early clean close is not distinguishable from
completion without framing. -/
theorem C3_truncated_transfer_reported_completed :
    (sendFile (FileRead.mk [[7]] false)).2 = false ∧
    receiveFile (sendFile (FileRead.mk [[7]] false)).1 =
      ([7], Outcome.Completed 1) :=
  ⟨rfl, rfl⟩

/-- Claim C4, counterexample: in the p2pshare.go discovery loop, a
datagram whose payload is a non-protocol string (decoding to
`InvalidMessage`) still gets its sender added to the peer set — the
loop upserts every sender unconditionally. -/
theorem C4_p2p_adds_sender_of_invalid :
    decode "NOISE" = DiscoveryMessage.InvalidMessage ∧
    "10.0.0.5:1234" ∈ (p2pStep [] (Datagram.mk "NOISE" "10.0.0.5:1234")).1 := by
  exact ⟨by decide, by simp [p2pStep, upsert]⟩

/-- Claim C4 as amended: in the network-monitor discovery loop, a
datagram whose payload is neither protocol tag decodes to
`InvalidMessage` and is silently dropped — the peer set is unchanged
and no reply is sent.  The p2pshare.go loop instead adds every sender
regardless of payload. -/
theorem C4_nm_drops_invalid (peers : List String) (d : Datagram)
    (h : decode d.payload = DiscoveryMessage.InvalidMessage) :
    nmStep peers d = (peers, none) := by
  by_cases h1 : d.payload = "DISCOVER_PEER"
  · rw [decode, if_pos h1] at h
    exact absurd h (by decide)
  · by_cases h2 : d.payload = "PEER_RESPONSE"
    · rw [decode, if_neg h1, if_pos h2] at h
      exact absurd h (by decide)
    · unfold nmStep
      rw [if_neg h1, if_neg h2]

/-- Witness for the amended theorem of C4 at a concrete noise datagram. -/
theorem C4_nm_drops_invalid_witness :
    nmStep ["10.0.0.9:9876"] (Datagram.mk "hello" "10.0.0.5:1234") =
      (["10.0.0.9:9876"], none) :=
  C4_nm_drops_invalid ["10.0.0.9:9876"] (Datagram.mk "hello" "10.0.0.5:1234")
    (by decide)

/-- Claim C5, counterexample: the engine broadcasts its probe on the
same port it listens on, so it receives its own probe; the loop has no
self check, so a probe whose sender address is the engine own
address (here its bound endpoint `192.168.1.7:9876`) is answered with
a `PEER_RESPONSE` — the claim says a probe from self is never
answered. -/
theorem C5_probe_from_self_answered :
    nmStep [] (Datagram.mk "DISCOVER_PEER" "192.168.1.7:9876") =
      ([], some (Datagram.mk "PEER_RESPONSE" "192.168.1.7:9876")) := by
  decide

/-- Claim C5 as amended: the network-monitor loop replies with a
`PEER_RESPONSE` unicast to the sender for every received probe,
unconditionally — there is no self check, so this includes probes from
the instance itself. -/
theorem C5_replies_to_every_probe (peers : List String) (d : Datagram)
    (h : d.payload = "DISCOVER_PEER") :
    nmStep peers d = (peers, some (Datagram.mk "PEER_RESPONSE" d.sender)) := by
  unfold nmStep
  rw [if_pos h]

/-- Witness for the amended theorem of C5 at a concrete probe. -/
theorem C5_replies_to_every_probe_witness :
    nmStep [] (Datagram.mk "DISCOVER_PEER" "10.0.0.8:9876") =
      ([], some (Datagram.mk "PEER_RESPONSE" "10.0.0.8:9876")) :=
  C5_replies_to_every_probe [] (Datagram.mk "DISCOVER_PEER" "10.0.0.8:9876") rfl

/-- Claim C6: over any sequence of received datagrams, a peer that
sent at least one `PEER_RESPONSE` appears exactly once in the snapshot
(the Go map keyed by address admits no duplicate identities), the
snapshot is duplicate-free, and the upsert is idempotent. -/
theorem C6_snapshot_no_duplicates (evs : List Datagram) (a : String)
    (h : ∃ d ∈ evs, d.payload = "PEER_RESPONSE" ∧ d.sender = a) :
    ((nmLoop [] evs).1).count a = 1 ∧ ((nmLoop [] evs).1).Nodup ∧
    ∀ peers, upsert (upsert peers a) a = upsert peers a := by
  have hnd := nmLoop_nodup evs [] List.nodup_nil
  have hmem := nmLoop_mem_of_response evs [] a h
  refine ⟨List.count_eq_one_of_mem hnd hmem, hnd, fun peers => ?_⟩
  conv_lhs => rw [upsert]
  rw [if_pos (mem_upsert_self peers a)]

/-- Witness for C6 on a run where the same peer responds twice and
another peer responds once. -/
theorem C6_snapshot_no_duplicates_witness :
    ((nmLoop [] [Datagram.mk "PEER_RESPONSE" "10.0.0.5:9876",
                 Datagram.mk "PEER_RESPONSE" "10.0.0.6:9876",
                 Datagram.mk "PEER_RESPONSE" "10.0.0.5:9876"]).1).count
        "10.0.0.5:9876" = 1 :=
  (C6_snapshot_no_duplicates _ "10.0.0.5:9876"
    ⟨Datagram.mk "PEER_RESPONSE" "10.0.0.5:9876", by simp, rfl, rfl⟩).1

/-- Claim C7, counterexample: a peer whose only `PEER_RESPONSE`
arrived at time 0 is still in the snapshot taken at time 2 even for a
liveness window of 1 (so last-seen plus window is strictly before the
snapshot): `discoverPeers` keeps no last-seen timestamps and runs no
eviction sweep. -/
theorem C7_stale_peer_not_evicted :
    0 + 1 < 2 ∧
    "10.0.0.5:9876" ∈ snapshotTimed
      [TimedDatagram.mk 0 (Datagram.mk "PEER_RESPONSE" "10.0.0.5:9876")] := by
  exact ⟨by decide, by decide⟩

/-- Claim C7 as amended: the source performs no eviction at all —
every peer that sent a `PEER_RESPONSE` at any time during the
collection is in the snapshot, whatever the arrival times were. -/
theorem C7_no_eviction_sweep (evs : List TimedDatagram) (a : String)
    (h : ∃ e ∈ evs, e.dgram.payload = "PEER_RESPONSE" ∧ e.dgram.sender = a) :
    a ∈ snapshotTimed evs := by
  unfold snapshotTimed
  apply nmLoop_mem_of_response
  rcases h with ⟨e, he, h1, h2⟩
  exact ⟨e.dgram, List.mem_map_of_mem _ he, h1, h2⟩

/-- Witness for the amended theorem of C7: a response at time 5 is in the
snapshot. -/
theorem C7_no_eviction_sweep_witness :
    "10.0.0.6:9876" ∈ snapshotTimed
      [TimedDatagram.mk 5 (Datagram.mk "PEER_RESPONSE" "10.0.0.6:9876")] :=
  C7_no_eviction_sweep _ "10.0.0.6:9876"
    ⟨TimedDatagram.mk 5 (Datagram.mk "PEER_RESPONSE" "10.0.0.6:9876"),
     by simp, rfl, rfl⟩

/-- Claim C9, counterexample: when the broadcast send fails,
`discoverPeers` returns the error result at once and never starts the
receive loop, so a probe that arrives afterwards gets no reply — the
instance cannot be discovered, where the claim says listening
continues. -/
theorem C9_broadcast_failure_stops_listening :
    discoverPeersRun false "network is unreachable"
      [Datagram.mk "DISCOVER_PEER" "10.0.0.5:1234"] =
    (["Error sending broadcast: network is unreachable"], []) := by
  decide

/-- Claim C9 as amended: a received probe is answered when the
broadcast succeeded (the loop runs), but on broadcast send failure the
function returns the error immediately and no datagram is answered. -/
theorem C9_broadcast_failure_aborts (errText : String) (evs : List Datagram)
    (d : Datagram) (hmem : d ∈ evs) (hp : d.payload = "DISCOVER_PEER") :
    Datagram.mk "PEER_RESPONSE" d.sender ∈ (discoverPeersRun true errText evs).2 ∧
    (discoverPeersRun false errText evs).2 = [] := by
  constructor
  · simp only [discoverPeersRun, if_true]
    exact nmLoop_reply_of_probe evs [] d hmem hp
  · simp [discoverPeersRun]

/-- Witness for the amended theorem of C9 at a concrete probe. -/
theorem C9_broadcast_failure_aborts_witness :
    Datagram.mk "PEER_RESPONSE" "10.0.0.7:1234" ∈
      (discoverPeersRun true "e" [Datagram.mk "DISCOVER_PEER" "10.0.0.7:1234"]).2 :=
  (C9_broadcast_failure_aborts "e" _ (Datagram.mk "DISCOVER_PEER" "10.0.0.7:1234")
    (by simp) rfl).1

lemma pow_256_8 : (256 : Nat) ^ 8 = 2 ^ 64 := by norm_num

lemma fromBytesBE_len (p : List Nat) (h : p.length < 2 ^ 64) :
    fromBytesBE (toBytesBE 8 p.length) = p.length := by
  rw [fromBytesBE_toBytesBE, Nat.mod_eq_of_lt (pow_256_8.symm ▸ h)]

/-- Claim C2: for every byte payload, encoding it as a frame and
decoding the result reproduces the exact payload (the empty payload is
the end-of-stream marker, which denotes exactly the empty payload),
with the bytes after the frame untouched; and decoding any strict
prefix of the encoded frame — a stream that ends before the declared
length is satisfied — yields `truncated`, never a short payload
reported as success. -/
theorem C2_frame_roundtrip_and_truncation (p extra : List Nat) (k : Nat)
    (h : p.length < 2 ^ 64) :
    decodeFrame (encodeFrame p ++ extra) =
      (if p.isEmpty then FrameResult.endOfStream extra
       else FrameResult.payload p extra) ∧
    (k < 8 + p.length →
      decodeFrame ((encodeFrame p).take k) = FrameResult.truncated) := by
  have hlen : (toBytesBE 8 p.length).length = 8 := length_toBytesBE 8 p.length
  have hdec := fromBytesBE_len p h
  constructor
  · show decodeFrame ((toBytesBE 8 p.length ++ p) ++ extra) = _
    rw [List.append_assoc]
    have htake : (toBytesBE 8 p.length ++ (p ++ extra)).take 8 =
        toBytesBE 8 p.length := by
      rw [← hlen]; exact List.take_left _ _
    have hdrop : (toBytesBE 8 p.length ++ (p ++ extra)).drop 8 = p ++ extra := by
      rw [← hlen]; exact List.drop_left _ _
    have hslen : ¬ ((toBytesBE 8 p.length ++ (p ++ extra)).length < 8) := by
      simp [hlen]
    unfold decodeFrame
    rw [if_neg hslen, htake, hdrop, hdec]
    by_cases hp : p = []
    · subst hp; simp
    · have hl0 : ¬ (p.length = 0) := by simpa using hp
      rw [if_neg hl0]
      have hno : ¬ ((p ++ extra).length < p.length) := by simp
      rw [if_neg hno, List.take_left, List.drop_left]
      simp [hp]
  · intro hk
    by_cases hk8 : k < 8
    · have ht : ((encodeFrame p).take k).length < 8 := by
        simp only [List.length_take]
        omega
      unfold decodeFrame
      rw [if_pos ht]
    · have hk8' : 8 ≤ k := by omega
      have hkp : k - 8 < p.length := by omega
      have hsplit : (encodeFrame p).take k =
          toBytesBE 8 p.length ++ p.take (k - 8) := by
        show ((toBytesBE 8 p.length) ++ p).take k = _
        rw [List.take_append_eq_append_take, hlen,
          List.take_of_length_le (by omega : (toBytesBE 8 p.length).length ≤ k)]
      have htlen : (toBytesBE 8 p.length ++ p.take (k - 8)).length = 8 + (k - 8) := by
        simp only [List.length_append, hlen, List.length_take]
        omega
      have htake : (toBytesBE 8 p.length ++ p.take (k - 8)).take 8 =
          toBytesBE 8 p.length := by
        rw [← hlen]; exact List.take_left _ _
      have hdrop : (toBytesBE 8 p.length ++ p.take (k - 8)).drop 8 =
          p.take (k - 8) := by
        rw [← hlen]; exact List.drop_left _ _
      rw [hsplit]
      unfold decodeFrame
      rw [if_neg (show ¬ ((toBytesBE 8 p.length ++ p.take (k - 8)).length < 8) by
            rw [htlen]; omega),
        htake, hdrop, hdec, if_neg (show ¬ (p.length = 0) by omega),
        if_pos (show (p.take (k - 8)).length < p.length by
            rw [List.length_take]; omega)]

/-- Witness for C2 at payload `[5, 6]`, trailing bytes `[9]`, and a
prefix of 9 of the 10 encoded bytes. -/
theorem C2_frame_roundtrip_and_truncation_witness :
    decodeFrame (encodeFrame [5, 6] ++ [9]) =
      (if ([5, 6] : List Nat).isEmpty then FrameResult.endOfStream [9]
       else FrameResult.payload [5, 6] [9]) ∧
    (9 < 8 + ([5, 6] : List Nat).length →
      decodeFrame ((encodeFrame [5, 6]).take 9) = FrameResult.truncated) :=
  C2_frame_roundtrip_and_truncation [5, 6] [9] 9 (by norm_num)

lemma nmUpdate_enter_files (m : UiModel) (f p : String)
    (hs : m.stage = "files") (hl : 0 < m.files.length)
    (hf : goIdx m.files m.selectedFile = some f)
    (hp : goIdx m.peers m.selectedPeer = some p) :
    nmUpdate m (UiMsg.key UiKey.enter) =
      some ({ m with status := "📡 Sending file: " ++ f ++ " to " ++ p },
            UiCmd.send f p) := by
  have hc1 : ¬ (m.stage = "peers" ∧ 0 < m.peers.length) := by
    rintro ⟨hpe, -⟩
    rw [hs] at hpe
    exact absurd hpe (by decide)
  simp only [nmUpdate]
  rw [if_neg hc1, if_pos ⟨hs, hl⟩, hf, hp]

/-- Claim C8, counterexample: from the initial model, select the one
discovered peer, then press Enter three times.  The second and third
Enter arrive while the send launched by the first is in flight, yet
each one fires another `go sendFile` command — no `Busy` rejection
exists anywhere in `Update`, and no busy state is tracked. -/
theorem C8_enter_repeatedly_launches_sends :
    runNmCmds (uiInit ["a.txt"])
      [UiMsg.peerList ["10.0.0.5:9876"], UiMsg.key UiKey.enter,
       UiMsg.key UiKey.enter, UiMsg.key UiKey.enter] =
    some (UiModel.mk ["10.0.0.5:9876"] ["a.txt"] 0 0 "files"
            "📡 Sending file: a.txt to 10.0.0.5:9876",
          [UiCmd.nil, UiCmd.nil, UiCmd.send "a.txt" "10.0.0.5:9876",
           UiCmd.send "a.txt" "10.0.0.5:9876"]) := by
  decide

/-- Claim C8 as amended: a send request while one is in flight is not
rejected with `Busy` and not queued — whenever an Enter fires a send,
pressing Enter again in the resulting state fires another identical
send at once, with the model unchanged (the status line is rewritten
to the same string). -/
theorem C8_second_send_not_rejected (m m2 : UiModel) (f p : String)
    (h : nmUpdate m (UiMsg.key UiKey.enter) = some (m2, UiCmd.send f p)) :
    nmUpdate m2 (UiMsg.key UiKey.enter) = some (m2, UiCmd.send f p) := by
  simp only [nmUpdate] at h
  split_ifs at h with hc1 hc2
  · simp at h
  · cases hf : goIdx m.files m.selectedFile with
    | none =>
      rw [hf] at h
      cases hp2 : goIdx m.peers m.selectedPeer <;> rw [hp2] at h <;> simp at h
    | some f0 =>
      cases hp2 : goIdx m.peers m.selectedPeer with
      | none => rw [hf, hp2] at h; simp at h
      | some p0 =>
        rw [hf, hp2] at h
        simp only [Option.some.injEq, Prod.mk.injEq, UiCmd.send.injEq] at h
        obtain ⟨hm2, hf0, hp0⟩ := h
        subst hf0
        subst hp0
        subst hm2
        exact nmUpdate_enter_files _ _ _ hc2.1 hc2.2 hf hp2
  · simp at h

/-- Witness for the amended theorem of C8: in a files-stage state an Enter
fires a send, and the theorem yields that the next Enter fires the
same send again. -/
theorem C8_second_send_not_rejected_witness :
    nmUpdate (UiModel.mk ["10.0.0.5:9876"] ["a.txt"] 0 0 "files"
        "📡 Sending file: a.txt to 10.0.0.5:9876")
      (UiMsg.key UiKey.enter) =
    some (UiModel.mk ["10.0.0.5:9876"] ["a.txt"] 0 0 "files"
            "📡 Sending file: a.txt to 10.0.0.5:9876",
          UiCmd.send "a.txt" "10.0.0.5:9876") :=
  C8_second_send_not_rejected
    (UiModel.mk ["10.0.0.5:9876"] ["a.txt"] 0 0 "files" "x")
    (UiModel.mk ["10.0.0.5:9876"] ["a.txt"] 0 0 "files"
      "📡 Sending file: a.txt to 10.0.0.5:9876")
    "a.txt" "10.0.0.5:9876" (by decide)

/-- Claim C10, counterexample: the p2pshare.go `Update` does not reset
`selectedPeer` when the peer list changes (nor `selectedFile` when the
stage advances).  Starting from the initial model, after a 3-peer
list, two Down moves, a replacement 1-peer list (selection stays at 2),
and Enter into the files stage, the next Enter evaluates
`m.peers[m.selectedPeer]` with index 2 on a 1-element slice — an
out-of-range panic, modelled as `Option.none`. -/
theorem C10_p2p_enter_panics :
    runP2p (uiInit ["f.txt"])
      [UiMsg.peerList ["10.0.0.2:9876", "10.0.0.3:9876", "10.0.0.4:9876"],
       UiMsg.key UiKey.down, UiMsg.key UiKey.down,
       UiMsg.peerList ["10.0.0.9:9876"],
       UiMsg.key UiKey.enter, UiMsg.key UiKey.enter] = Option.none := by
  decide

/-- Claim C10 as amended (restricted to the network-monitor `Update`,
which does reset `selectedFile` on stage advance and `selectedPeer` on
a peer-list change): on every reachable state, every message leaves
`Update` panic-free, and in every reachable files-stage state with a
non-empty file list both selection indices are non-negative and
strictly below the lengths of their slices, so the Enter handler
indexing is in bounds. -/
theorem C10_nm_never_panics (files : List String) (m : UiModel)
    (h : NmReach files m) :
    (∀ msg, (nmUpdate m msg).isSome) ∧
    (m.stage = "files" → 0 < m.files.length →
      0 ≤ m.selectedFile ∧ m.selectedFile < (m.files.length : Int) ∧
      0 ≤ m.selectedPeer ∧ m.selectedPeer < (m.peers.length : Int)) := by
  have hi := nmInv_reach h
  obtain ⟨h1, h2, h3, h4, h5⟩ := hi
  refine ⟨fun msg => nmUpdate_isSome m msg ⟨h1, h2, h3, h4, h5⟩, ?_⟩
  intro hs hf
  have hp := h5 hs
  refine ⟨h2, ?_, h1, ?_⟩
  · rcases h4 with h | h <;> omega
  · rcases h3 with h | h <;> omega

/-- Witness for the amended theorem of C10 at the initial model. -/
theorem C10_nm_never_panics_witness :
    (nmUpdate (uiInit ["a.txt"]) (UiMsg.key UiKey.down)).isSome :=
  (C10_nm_never_panics ["a.txt"] (uiInit ["a.txt"]) NmReach.init).1
    (UiMsg.key UiKey.down)
